import Mathlib

/-!
Shallow embedding of the table-extraction core of `Modules/TableExtraction.py`.

The embedded code is the grid-reconstruction pipeline inside
`save_to_jsonl_with_strong_table_extraction` (area filter, no-cell check,
sort, row clustering, grid dimensions, per-page error containment, document
summary) together with `extract_layout` / `repair_pdf` (the repair-and-retry
cycle) and the NumPy slice semantics used to crop a table region from a page
bitmap.  External effects that no claim depends on (file writing, OCR text,
image morphology internals) are abstracted: a contour is represented by its
`contourArea` value and its `boundingRect`, and a table record by the `Grid`
that would be written for it.
-/

namespace Spar

/-- A candidate cell rectangle as returned by `cv2.boundingRect`: `(x, y, w, h)`
in table-local pixel coordinates. -/
structure Box where
  x : Int
  y : Int
  w : Int
  h : Int
deriving DecidableEq

/-- The key order of `sorted(cell_boxes, key=lambda b: (b[1], b[0]))` (line 124):
lexicographic on `(y, x)`. -/
def keyYX (a b : Box) : Prop :=
  a.y < b.y ∨ (a.y = b.y ∧ a.x ≤ b.x)

instance : DecidableRel keyYX := fun a b => by
  unfold keyYX
  infer_instance

/-- The key order of `sorted(current_row, key=lambda x: x[0])` (lines 130, 132):
by `x`. -/
def keyX (a b : Box) : Prop :=
  a.x ≤ b.x

instance : DecidableRel keyX := fun a b => by
  unfold keyX
  infer_instance

/-- Line 124, `sorted(cell_boxes, key=lambda b: (b[1], b[0]))`.  Python's
`sorted` is a stable sort by the key; insertion sort over the total preorder
`keyYX` is also stable, and a stable sort's output is uniquely determined by
the input order and the key, so the two are extensionally identical. -/
def sortCellBoxes (boxes : List Box) : List Box :=
  boxes.insertionSort keyYX

/-- Lines 130 and 132, `sorted(current_row, key=lambda x: x[0])`: the stable
sort of a finished row by its left edge. -/
def sortRowByX (row : List Box) : List Box :=
  row.insertionSort keyX

/-- The row-grouping loop of lines 125-132.  `rows` is the accumulator `rows`,
`cur` is `current_row`, and `last` is `current_row[-1]` (the loop keeps the
invariant that `cur` is non-empty and ends with `last`, so carrying `last`
separately is faithful).  The comparison `abs(b[1] - current_row[-1][1]) < 20`
(line 127) is against the box most recently appended to the current row. -/
def groupGo (rows : List (List Box)) (cur : List Box) (last : Box) :
    List Box → List (List Box)
  | [] => rows ++ [sortRowByX cur]
  | b :: bs =>
    if (b.y - last.y).natAbs < 20 then
      groupGo rows (cur ++ [b]) b bs
    else
      groupGo (rows ++ [sortRowByX cur]) [b] b bs

/-- Lines 125-132 for a full (already sorted) candidate list: start
`current_row = [cell_boxes[0]]` and walk `cell_boxes[1:]`.  The empty case is
unreachable in the source (guarded by the no-cell check at line 120). -/
def clusterRows : List Box → List (List Box)
  | [] => []
  | b :: bs => groupGo [] [b] b bs

/-- The grid rows produced for a candidate cell-box list: sort by `(y, x)`,
then cluster (lines 124-132). -/
def gridRows (cellBoxes : List Box) : List (List Box) :=
  clusterRows (sortCellBoxes cellBoxes)

/-- Line 134, `n_cols = max(len(r) for r in rows)`.  Python's `max` raises on
an empty sequence; `rows` is provably non-empty whenever this is evaluated, so
the `0` seed of the fold is inert and the fold equals the true maximum. -/
def nColsOf (rows : List (List Box)) : Nat :=
  (rows.map List.length).foldl max 0

/-- The structural content of one table record: the clustered rows and the
recorded `n_rows` / `n_cols` (lines 134, 150-151).  Cell text (OCR output)
carries no structure relevant to any claim and is omitted. -/
structure Grid where
  rows : List (List Box)
  n_rows : Nat
  n_cols : Nat
deriving DecidableEq

/-- The per-table failure of line 121, `raise ValueError("No cells found in
detected table")`. -/
inductive TableError where
  | noCellsFound
deriving DecidableEq

/-- A contour from `cv2.findContours` (line 118), abstracted to the two
observations the source makes of it: `cv2.contourArea` (a real value; for
polygons with integer vertices it is an exact half-integer, so `ℚ` represents
it without loss) and `cv2.boundingRect`. -/
structure Contour where
  area : ℚ
  bbox : Box
deriving DecidableEq

/-- Line 119, `[cv2.boundingRect(c) for c in contours if cv2.contourArea(c) > 200]`:
keep the bounding rectangles of exactly the contours of area strictly greater
than 200. -/
def cellBoxesOf (contours : List Contour) : List Box :=
  (contours.filter (fun c => decide (200 < c.area))).map Contour.bbox

/-- Lines 120-134: the no-cell check followed by grid assembly.  An empty
candidate list raises (modelled as `Except.error`); otherwise the sorted,
clustered rows and the recorded dimensions are returned. -/
def detectGrid (cellBoxes : List Box) : Except TableError Grid :=
  if cellBoxes = [] then .error .noCellsFound
  else
    let rows := gridRows cellBoxes
    .ok ⟨rows, rows.length, nColsOf rows⟩

/-- One table element of a page as consumed by the per-table loop (lines
97-160): `none` models an element whose `coordinates` (or `points`) are
missing, which the loop skips with `continue` (lines 98-100); `some cs` models
a table whose structural mask yielded the contour list `cs` (line 118). -/
abbrev TableInput := Option (List Contour)

/-- The per-table loop (lines 97-160) as executed under the page-level `try`
of line 86: tables are processed in order; a table with no coordinates is
skipped; a successful table appends its grid (the source also writes the
record and appends the page index, lines 156-160); a table whose grid
detection raises propagates to the page-level `except` handler (line 162), so
the records appended by earlier tables of the page are kept and the remaining
tables of the page are not reached.  Returns the grids recorded for the
page. -/
def runPageTables : List TableInput → List Grid
  | [] => []
  | none :: ts => runPageTables ts
  | some cs :: ts =>
    match detectGrid (cellBoxesOf cs) with
    | .error _ => []
    | .ok g => g :: runPageTables ts

/-- One page of a document: the table elements the layout pass assigned to
it (lines 91-95). -/
structure PageInput where
  tables : List TableInput
deriving DecidableEq

/-- One document as seen by `save_to_jsonl_with_strong_table_extraction`:
whether `convert_from_path` succeeds (line 80), and the per-page table
elements. -/
structure DocInput where
  rasterOk : Bool
  pages : List PageInput
deriving DecidableEq

/-- The summary record of lines 166-171, restricted to its two content fields
(`doc_id` and `filename` are opaque provenance strings). -/
structure Summary where
  n_tables : Nat
  pages_with_tables : List Nat
deriving DecidableEq

/-- The grids recorded for each page of a document, in page order (the loop of
line 85). -/
def docPageRecords (d : DocInput) : List (List Grid) :=
  d.pages.map (fun p => runPageTables p.tables)

/-- The raw `pages_with_tables` list built at line 160: one copy of the page
index `off + j` for every record of page `j`, in write order. -/
def pagesAppendedGo (off : Nat) : List (List Grid) → List Nat
  | [] => []
  | recs :: rest => recs.map (fun _ => off) ++ pagesAppendedGo (off + 1) rest

/-- Line 170, `sorted(list(set(pages_with_tables)))`: deduplicate and sort
ascending the appended page indices. -/
def pagesWithTablesOf (perPage : List (List Grid)) : List Nat :=
  ((pagesAppendedGo 0 perPage).dedup).insertionSort (· ≤ ·)

/-- Lines 79-174: a rasterization failure returns before anything is written
(lines 81-83, so no summary); otherwise the pages are processed and exactly
one summary record is appended (lines 166-174), with `n_tables` the number of
table records written and `pages_with_tables` the sorted deduplicated page
indices.  `none` models "no summary appended". -/
def processDoc (d : DocInput) : Option Summary :=
  if d.rasterOk then
    some ⟨((docPageRecords d).map List.length).sum,
          pagesWithTablesOf (docPageRecords d)⟩
  else none

/-- Outcome oracle for the two external calls of `extract_layout` and
`repair_pdf` (lines 27-67): whether `partition_pdf` on the original file
succeeds (line 48), whether the pikepdf repair succeeds (lines 33-34), and
whether `partition_pdf` on the repaired copy succeeds (line 59). -/
structure LayoutEnv where
  parseOk : Bool
  repairOk : Bool
  retryOk : Bool

/-- Observable trace of one `extract_layout` call: how many times
`partition_pdf` ran, how many times `repair_pdf` ran, and whether elements
were returned (`false` models the terminal `return []` of line 67). -/
structure LayoutTrace where
  parseCalls : Nat
  repairCalls : Nat
  success : Bool
deriving DecidableEq

/-- Lines 42-67: try `partition_pdf`; on failure run `repair_pdf` once; if the
repair produced a file, retry `partition_pdf` once on it; any remaining
failure is terminal (`return []`).  The trace counts the invocations. -/
def extract_layout (env : LayoutEnv) : LayoutTrace :=
  if env.parseOk then ⟨1, 0, true⟩
  else if env.repairOk then
    if env.retryOk then ⟨2, 1, true⟩ else ⟨2, 1, false⟩
  else ⟨1, 1, false⟩

/-- CPython slice-bound resolution for one axis of length `n` with step 1
(`slice.indices`), which is what NumPy basic slicing `a[i:j]` uses: a
negative bound is taken relative to the end (`n + i`, floored at `0`), a
non-negative bound is capped at `n`. -/
def sliceBound (n : Nat) (i : Int) : Nat :=
  if i < 0 then ((n : Int) + i).toNat
  else min i.toNat n

/-- The row (or column) indices read by the crop `page_gray[y0:y1, x0:x1]` of
line 104 along one axis of length `n`: the contiguous range from the resolved
start to the resolved stop (empty when stop ≤ start). -/
def sliceIdxs (n : Nat) (i j : Int) : List Nat :=
  List.range' (sliceBound n i) (sliceBound n j - sliceBound n i)

/-- Modelled from the spec: the clipping semantics the spec ascribes to the
crop ("out-of-range boxes are clipped"), namely the intersection of the
requested interval `[i, j)` with the axis `[0, n)`. -/
def clipBound (n : Nat) (i : Int) : Nat :=
  min (max i 0).toNat n

/-- Modelled from the spec: the row (or column) indices of the requested
interval clipped to the page axis. -/
def clipIdxs (n : Nat) (i j : Int) : List Nat :=
  List.range' (clipBound n i) (clipBound n j - clipBound n i)

/-- Modelled from the spec (§4.3): the anchor-based grouping rule the spec
describes, in which a box joins the current row exactly when its top-edge `y`
differs from the row's anchor `y` — the FIRST box placed in that row — by less
than 20; to be compared with the source's `groupGo`, which compares against
`current_row[-1]`. -/
def anchorGo (rows : List (List Box)) (cur : List Box) (anchor : Box) :
    List Box → List (List Box)
  | [] => rows ++ [sortRowByX cur]
  | b :: bs =>
    if (b.y - anchor.y).natAbs < 20 then
      anchorGo rows (cur ++ [b]) anchor bs
    else
      anchorGo (rows ++ [sortRowByX cur]) [b] b bs

/-- Modelled from the spec (§4.3): anchor-based clustering of a sorted
candidate list. -/
def anchorCluster : List Box → List (List Box)
  | [] => []
  | b :: bs => anchorGo [] [b] b bs

/-- Chain grouping of `b :: bs`: the first component is the group containing
`b` (a box extends the group when its `y` differs from the `y` of its
immediate predecessor — the box most recently placed — by less than 20), the
second component is the remaining groups. -/
def chunksCore (b : Box) : List Box → List Box × List (List Box)
  | [] => ([b], [])
  | c :: cs =>
    if (c.y - b.y).natAbs < 20 then
      (b :: (chunksCore c cs).1, (chunksCore c cs).2)
    else
      ([b], (chunksCore c cs).1 :: (chunksCore c cs).2)

/-- Chain-rule clustering: group consecutive sorted boxes while each differs
from the box most recently placed (its immediate predecessor) by less than 20,
then sort each finished group by `x`.  This is the corrected reading of the
spec's §4.3 sentence. -/
def lastRuleCluster : List Box → List (List Box)
  | [] => []
  | b :: bs => ((chunksCore b bs).1 :: (chunksCore b bs).2).map sortRowByX

theorem chunksCore_fst_cons : ∀ (bs : List Box) (b : Box),
    ∃ t : List Box, (chunksCore b bs).1 = b :: t
  | [], b => ⟨[], rfl⟩
  | c :: cs, b => by
    simp only [chunksCore]
    by_cases h : (c.y - b.y).natAbs < 20
    · exact ⟨(chunksCore c cs).1, by rw [if_pos h]⟩
    · exact ⟨[], by rw [if_neg h]⟩

theorem chunksCore_snd_ne_nil : ∀ (bs : List Box) (b : Box),
    ∀ g ∈ (chunksCore b bs).2, g ≠ []
  | [], b => by simp [chunksCore]
  | c :: cs, b => by
    simp only [chunksCore]
    by_cases h : (c.y - b.y).natAbs < 20
    · rw [if_pos h]
      exact chunksCore_snd_ne_nil cs c
    · rw [if_neg h]
      intro g hg
      rcases List.mem_cons.mp hg with hg | hg
      · obtain ⟨t, ht⟩ := chunksCore_fst_cons cs c
        subst hg
        simp [ht]
      · exact chunksCore_snd_ne_nil cs c g hg

theorem chunksCore_flatten : ∀ (bs : List Box) (b : Box),
    (chunksCore b bs).1 ++ ((chunksCore b bs).2).flatten = b :: bs
  | [], b => rfl
  | c :: cs, b => by
    simp only [chunksCore]
    by_cases h : (c.y - b.y).natAbs < 20
    · rw [if_pos h]
      simpa using congrArg (b :: ·) (chunksCore_flatten cs c)
    · rw [if_neg h]
      simpa using congrArg (b :: ·) (chunksCore_flatten cs c)

theorem groupGo_eq_chunksCore : ∀ (bs : List Box) (rows : List (List Box))
    (pre : List Box) (last : Box),
    groupGo rows (pre ++ [last]) last bs =
      rows ++ sortRowByX (pre ++ (chunksCore last bs).1) ::
        ((chunksCore last bs).2).map sortRowByX
  | [], rows, pre, last => by simp [groupGo, chunksCore]
  | b :: bs, rows, pre, last => by
    simp only [groupGo, chunksCore]
    by_cases h : (b.y - last.y).natAbs < 20
    · rw [if_pos h, if_pos h]
      have ih := groupGo_eq_chunksCore bs rows (pre ++ [last]) b
      rw [List.append_assoc] at ih
      simpa using ih
    · rw [if_neg h, if_neg h]
      have ih := groupGo_eq_chunksCore bs (rows ++ [sortRowByX (pre ++ [last])]) [] b
      simpa using ih

theorem clusterRows_eq_lastRule (bs : List Box) :
    clusterRows bs = lastRuleCluster bs := by
  cases bs with
  | nil => rfl
  | cons b bs =>
    have h := groupGo_eq_chunksCore bs [] [] b
    simpa [clusterRows, lastRuleCluster] using h

theorem length_sortRowByX (row : List Box) :
    (sortRowByX row).length = row.length :=
  List.length_insertionSort keyX row

theorem mem_sortRowByX {row : List Box} {x : Box} :
    x ∈ sortRowByX row ↔ x ∈ row :=
  List.mem_insertionSort keyX

theorem length_sortCellBoxes (boxes : List Box) :
    (sortCellBoxes boxes).length = boxes.length :=
  List.length_insertionSort keyYX boxes

theorem mem_sortCellBoxes {boxes : List Box} {x : Box} :
    x ∈ sortCellBoxes boxes ↔ x ∈ boxes :=
  List.mem_insertionSort keyYX

theorem clusterRows_ne_nil {bs : List Box} (h : bs ≠ []) :
    clusterRows bs ≠ [] := by
  cases bs with
  | nil => exact absurd rfl h
  | cons b bs' =>
    rw [clusterRows_eq_lastRule]
    simp [lastRuleCluster]

theorem mem_clusterRows_ne_nil (bs : List Box) :
    ∀ r ∈ clusterRows bs, r ≠ [] := by
  rw [clusterRows_eq_lastRule]
  cases bs with
  | nil => simp [lastRuleCluster]
  | cons b bs' =>
    intro r hr
    simp only [lastRuleCluster, List.mem_map] at hr
    obtain ⟨g, hg, rfl⟩ := hr
    have hgne : g ≠ [] := by
      rcases List.mem_cons.mp hg with h | h
      · obtain ⟨t, ht⟩ := chunksCore_fst_cons bs' b
        subst h
        simp [ht]
      · exact chunksCore_snd_ne_nil bs' b g h
    intro hcon
    apply hgne
    have hlen := length_sortRowByX g
    rw [hcon] at hlen
    exact List.eq_nil_of_length_eq_zero hlen.symm

theorem mem_of_mem_clusterRows {bs : List Box} {r : List Box} {x : Box}
    (hr : r ∈ clusterRows bs) (hx : x ∈ r) : x ∈ bs := by
  rw [clusterRows_eq_lastRule] at hr
  cases bs with
  | nil => simp [lastRuleCluster] at hr
  | cons b bs' =>
    simp only [lastRuleCluster, List.mem_map] at hr
    obtain ⟨g, hg, rfl⟩ := hr
    have hxg : x ∈ g := mem_sortRowByX.mp hx
    have hflat : x ∈ (chunksCore b bs').1 ++ ((chunksCore b bs').2).flatten := by
      rcases List.mem_cons.mp hg with h | h
      · subst h
        exact List.mem_append_left _ hxg
      · exact List.mem_append_right _ (List.mem_flatten.mpr ⟨g, h, hxg⟩)
    rw [chunksCore_flatten] at hflat
    exact hflat

theorem sum_lengths_clusterRows (bs : List Box) :
    ((clusterRows bs).map List.length).sum = bs.length := by
  rw [clusterRows_eq_lastRule]
  cases bs with
  | nil => rfl
  | cons b bs' =>
    simp only [lastRuleCluster, List.map_map]
    have hcomp : List.length ∘ sortRowByX = fun r : List Box => r.length := by
      funext r
      exact length_sortRowByX r
    rw [hcomp]
    have := congrArg List.length (chunksCore_flatten bs' b)
    simp only [List.length_append, List.length_flatten, List.length_cons] at this ⊢
    simpa using this

theorem le_foldl_max_init : ∀ (l : List Nat) (a : Nat), a ≤ l.foldl max a
  | [], a => le_refl a
  | b :: l, a => le_trans (le_max_left a b) (le_foldl_max_init l (max a b))

theorem foldl_max_le_mem : ∀ (l : List Nat) (a x : Nat), x ∈ l → x ≤ l.foldl max a
  | [], _, _, h => absurd h (List.not_mem_nil _)
  | b :: l, a, x, h => by
    rcases List.mem_cons.mp h with rfl | h
    · exact le_trans (le_max_right a x) (le_foldl_max_init l (max a x))
    · exact foldl_max_le_mem l (max a b) x h

theorem foldl_max_eq_init_or_mem : ∀ (l : List Nat) (a : Nat),
    l.foldl max a = a ∨ l.foldl max a ∈ l
  | [], a => Or.inl rfl
  | b :: l, a => by
    rcases foldl_max_eq_init_or_mem l (max a b) with h | h
    · rw [List.foldl_cons, h]
      rcases max_choice a b with h2 | h2
      · exact Or.inl h2
      · right
        rw [h2]
        exact List.mem_cons_self b l
    · exact Or.inr (List.mem_cons_of_mem b h)

theorem mem_pagesAppendedGo : ∀ (perPage : List (List Grid)) (off k : Nat),
    k ∈ pagesAppendedGo off perPage ↔
      ∃ j, j < perPage.length ∧ k = off + j ∧ perPage.getD j [] ≠ []
  | [], off, k => by simp [pagesAppendedGo]
  | recs :: rest, off, k => by
    simp only [pagesAppendedGo, List.mem_append, List.mem_map]
    rw [mem_pagesAppendedGo rest (off + 1) k]
    constructor
    · rintro (⟨r, hr, rfl⟩ | ⟨j, hj, rfl, hne⟩)
      · refine ⟨0, by simp, by omega, ?_⟩
        simp only [List.getD_cons_zero]
        exact List.ne_nil_of_mem hr
      · exact ⟨j + 1, by simpa using hj, by omega, by simpa using hne⟩
    · rintro ⟨j, hj, rfl, hne⟩
      cases j with
      | zero =>
        left
        simp only [List.getD_cons_zero] at hne
        obtain ⟨r, hr⟩ := List.exists_mem_of_ne_nil _ hne
        exact ⟨r, hr, by omega⟩
      | succ j =>
        right
        refine ⟨j, by simpa using hj, by omega, by simpa using hne⟩

theorem mem_pagesWithTablesOf (perPage : List (List Grid)) (k : Nat) :
    k ∈ pagesWithTablesOf perPage ↔
      k < perPage.length ∧ perPage.getD k [] ≠ [] := by
  simp only [pagesWithTablesOf, List.mem_insertionSort, List.mem_dedup,
    mem_pagesAppendedGo]
  constructor
  · rintro ⟨j, hj, rfl, hne⟩
    exact ⟨by omega, by simpa using hne⟩
  · rintro ⟨hk, hne⟩
    exact ⟨k, hk, by omega, hne⟩

theorem runPageTables_nil_of_all_noCells : ∀ (ts : List TableInput),
    (∀ t ∈ ts, ∃ cs, t = some cs ∧ cellBoxesOf cs = []) → runPageTables ts = []
  | [], _ => rfl
  | t :: ts, h => by
    obtain ⟨cs, rfl, hcs⟩ := h t (List.mem_cons_self t ts)
    simp [runPageTables, detectGrid, hcs]

theorem runPageTables_abort : ∀ (pre : List TableInput) (cs : List Contour)
    (post : List TableInput), cellBoxesOf cs = [] →
    runPageTables (pre ++ some cs :: post) = runPageTables (pre ++ [some cs])
  | [], cs, post, h => by simp [runPageTables, detectGrid, h]
  | none :: pre, cs, post, h => by
    simp only [List.cons_append, runPageTables]
    exact runPageTables_abort pre cs post h
  | some cs' :: pre, cs, post, h => by
    have ih := runPageTables_abort pre cs post h
    simp only [List.cons_append, runPageTables, List.append_eq, ih]

/-- C1 (counterexample): the claim says a box joins the current row exactly
when its top-edge `y` differs from the row's ANCHOR `y` (the first box placed
in the row) by less than 20.  On the sorted input with top edges 0, 15, 30 the
source keeps all three boxes in one row (each consecutive difference is 15,
and line 127 compares against `current_row[-1]`), while the anchor rule closes
the row at the third box (30 − 0 = 30 ≥ 20), so the produced grids differ. -/
theorem C1_anchor_counterexample :
    clusterRows [⟨0, 0, 10, 10⟩, ⟨0, 15, 10, 10⟩, ⟨0, 30, 10, 10⟩] =
      [[⟨0, 0, 10, 10⟩, ⟨0, 15, 10, 10⟩, ⟨0, 30, 10, 10⟩]] ∧
    anchorCluster [⟨0, 0, 10, 10⟩, ⟨0, 15, 10, 10⟩, ⟨0, 30, 10, 10⟩] =
      [[⟨0, 0, 10, 10⟩, ⟨0, 15, 10, 10⟩], [⟨0, 30, 10, 10⟩]] ∧
    clusterRows [⟨0, 0, 10, 10⟩, ⟨0, 15, 10, 10⟩, ⟨0, 30, 10, 10⟩] ≠
      anchorCluster [⟨0, 0, 10, 10⟩, ⟨0, 15, 10, 10⟩, ⟨0, 30, 10, 10⟩] := by
  decide

/-- C1 (amended): for every sorted sequence of candidate cell boxes, a box
joins the current row exactly when its top-edge `y` differs from the `y` of
the box MOST RECENTLY placed in that row — its immediate predecessor in the
sorted order — by less than 20 pixels; otherwise the current row closes and a
new row begins with that box.  Formally the source's clustering loop equals
the chain-rule grouping `lastRuleCluster`, both on an already-sorted list and
inside the full pipeline `gridRows`. -/
theorem C1_row_rule (boxes : List Box) :
    clusterRows boxes = lastRuleCluster boxes ∧
    gridRows boxes = lastRuleCluster (sortCellBoxes boxes) :=
  ⟨clusterRows_eq_lastRule boxes, clusterRows_eq_lastRule (sortCellBoxes boxes)⟩

/-- C2 (counterexample): the claim says that when one table on a page fails
with `NoCellsFoundError`, the remaining tables of the same page are still
processed.  A page holding a failing table (sole contour of area 100,
filtered out) followed by a good table (contour of area 300) produces no
record at all, although the good table alone produces one: the exception is
caught by the page-level handler of line 162, aborting the rest of the
page. -/
theorem C2_table_counterexample :
    runPageTables [some [⟨100, ⟨0, 0, 10, 10⟩⟩], some [⟨300, ⟨0, 0, 10, 10⟩⟩]] = [] ∧
    runPageTables [some [⟨300, ⟨0, 0, 10, 10⟩⟩]] =
      [⟨[[⟨0, 0, 10, 10⟩]], 1, 1⟩] := by
  decide

/-- C2 (amended): failure isolation is per page, not per table: a table that
fails with `NoCellsFoundError` aborts the remaining tables of its own page
(the records of earlier tables on the page are kept, as the right-hand side
`runPageTables (pre ++ [some cs])` shows), while every page's records depend
only on that page's own tables, so a bad table or page never aborts the rest
of the document. -/
theorem C2_page_isolation (pre post : List TableInput) (cs : List Contour)
    (d : DocInput) (i : Nat) (hcs : cellBoxesOf cs = [])
    (hi : i < d.pages.length) :
    runPageTables (pre ++ some cs :: post) = runPageTables (pre ++ [some cs]) ∧
    (docPageRecords d).getD i [] =
      runPageTables ((d.pages.getD i ⟨[]⟩).tables) := by
  refine ⟨runPageTables_abort pre cs post hcs, ?_⟩
  have hi' : i < (docPageRecords d).length := by
    simpa [docPageRecords] using hi
  rw [List.getD_eq_getElem _ _ hi', List.getD_eq_getElem _ _ hi]
  simp [docPageRecords]

/-- C2 (witness for the amended theorem): instantiation on a one-page
document and an empty contour list. -/
theorem C2_page_isolation_witness :
    runPageTables ([] ++ some [] :: []) = runPageTables ([] ++ [some []]) ∧
    (docPageRecords ⟨true, [⟨[]⟩]⟩).getD 0 [] =
      runPageTables (((⟨true, [⟨[]⟩]⟩ : DocInput).pages.getD 0 ⟨[]⟩).tables) :=
  C2_page_isolation [] [] [] ⟨true, [⟨[]⟩]⟩ 0 (by decide) (by decide)

/-- C3: a table region whose candidate cell-box set is empty after the area
filter fails with `NoCellsFoundError` (an `Except.error`, not a crash), emits
no `TableRecord`; and a page all of whose tables fail this way contributes no
record and is excluded from the summary's `pages_with_tables`. -/
theorem C3_noCells_excluded (cs : List Contour) (d : DocInput) (i : Nat)
    (hcs : cellBoxesOf cs = [])
    (hi : i < d.pages.length)
    (hall : ∀ t ∈ (d.pages.getD i ⟨[]⟩).tables,
      ∃ cs2, t = some cs2 ∧ cellBoxesOf cs2 = []) :
    detectGrid (cellBoxesOf cs) = .error .noCellsFound ∧
    runPageTables ((d.pages.getD i ⟨[]⟩).tables) = [] ∧
    ∀ s, processDoc d = some s → i ∉ s.pages_with_tables := by
  have hempty : runPageTables ((d.pages.getD i ⟨[]⟩).tables) = [] :=
    runPageTables_nil_of_all_noCells _ hall
  refine ⟨by rw [hcs]; rfl, hempty, ?_⟩
  intro s hs
  have hro : d.rasterOk = true := by
    by_contra hro
    simp [processDoc, hro] at hs
  simp only [processDoc, hro, if_pos, Option.some.injEq] at hs
  intro hmem
  rw [← hs] at hmem
  rw [mem_pagesWithTablesOf] at hmem
  apply hmem.2
  have hi' : i < (docPageRecords d).length := by
    simpa [docPageRecords] using hi
  rw [List.getD_eq_getElem _ _ hi']
  have hgd : d.pages.getD i ⟨[]⟩ = d.pages[i] := List.getD_eq_getElem _ _ hi
  simp only [docPageRecords, List.getElem_map]
  rw [← hgd]
  exact hempty

/-- C3 (witness): a one-page document whose single table has an empty contour
list. -/
theorem C3_noCells_excluded_witness :
    detectGrid (cellBoxesOf []) = .error .noCellsFound ∧
    runPageTables (((⟨true, [⟨[some []]⟩]⟩ : DocInput).pages.getD 0 ⟨[]⟩).tables) = [] ∧
    ∀ s, processDoc ⟨true, [⟨[some []]⟩]⟩ = some s → 0 ∉ s.pages_with_tables :=
  C3_noCells_excluded [] ⟨true, [⟨[some []]⟩]⟩ 0 (by decide) (by decide)
    (by intro t ht; exact ⟨[], by simpa using ht, by decide⟩)

/-- C4: for every outcome of the external parse and repair calls,
`extract_layout` makes at most two `partition_pdf` attempts and at most one
`repair_pdf` attempt; a failing initial parse triggers exactly one repair
attempt; if the repair succeeds there is exactly one retry (two parse calls
in total) whose failure is terminal; if the repair fails the outcome is
terminal with no retry; and a successful initial parse does neither repair
nor retry. -/
theorem C4_repair_bound (env : LayoutEnv) :
    (extract_layout env).parseCalls ≤ 2 ∧
    (extract_layout env).repairCalls ≤ 1 ∧
    (env.parseOk = true → extract_layout env = ⟨1, 0, true⟩) ∧
    (env.parseOk = false → (extract_layout env).repairCalls = 1) ∧
    (env.parseOk = false → env.repairOk = true →
      (extract_layout env).parseCalls = 2 ∧
      (extract_layout env).success = env.retryOk) ∧
    (env.parseOk = false → env.repairOk = false →
      extract_layout env = ⟨1, 1, false⟩) := by
  obtain ⟨p, r, t⟩ := env
  cases p <;> cases r <;> cases t <;> decide

/-- C4 (witness): the document whose initial parse fails, whose repair
succeeds and whose retry fails makes exactly one repair attempt and two parse
attempts, then fails terminally; the document whose repair also fails makes
one parse and one repair attempt. -/
theorem C4_repair_bound_witness :
    (extract_layout ⟨false, true, false⟩).repairCalls = 1 ∧
    (extract_layout ⟨false, true, false⟩).parseCalls = 2 ∧
    (extract_layout ⟨false, true, false⟩).success = false ∧
    extract_layout ⟨false, false, false⟩ = ⟨1, 1, false⟩ :=
  ⟨(C4_repair_bound ⟨false, true, false⟩).2.2.2.1 rfl,
   ((C4_repair_bound ⟨false, true, false⟩).2.2.2.2.1 rfl rfl).1,
   ((C4_repair_bound ⟨false, true, false⟩).2.2.2.2.1 rfl rfl).2,
   (C4_repair_bound ⟨false, false, false⟩).2.2.2.2.2 rfl rfl⟩

/-- C5: for every non-empty candidate cell-box list, grid detection succeeds
and produces a grid in which every row is non-empty, `n_cols` is an upper
bound of the row lengths attained by some row (the length of the longest
row), and the row lengths sum to the number of input boxes (so short rows are
never padded). -/
theorem C5_grid_invariant (cellBoxes : List Box) (h : cellBoxes ≠ []) :
    ∃ g : Grid, detectGrid cellBoxes = .ok g ∧
      g.rows = gridRows cellBoxes ∧
      (∀ r ∈ g.rows, r ≠ []) ∧
      (∀ r ∈ g.rows, r.length ≤ g.n_cols) ∧
      (∃ r ∈ g.rows, r.length = g.n_cols) ∧
      (g.rows.map List.length).sum = cellBoxes.length := by
  have hs : sortCellBoxes cellBoxes ≠ [] := by
    intro hc
    apply h
    have hlen := length_sortCellBoxes cellBoxes
    rw [hc] at hlen
    exact List.eq_nil_of_length_eq_zero hlen.symm
  refine ⟨⟨gridRows cellBoxes, (gridRows cellBoxes).length,
    nColsOf (gridRows cellBoxes)⟩, by simp [detectGrid, h], rfl, ?_, ?_, ?_, ?_⟩
  · exact mem_clusterRows_ne_nil (sortCellBoxes cellBoxes)
  · intro r hr
    exact foldl_max_le_mem _ 0 r.length (List.mem_map_of_mem List.length hr)
  · rcases foldl_max_eq_init_or_mem ((gridRows cellBoxes).map List.length) 0
      with h0 | hm
    · exfalso
      obtain ⟨r0, hr0⟩ :=
        List.exists_mem_of_ne_nil _ (clusterRows_ne_nil hs)
      have hle : r0.length ≤ nColsOf (gridRows cellBoxes) :=
        foldl_max_le_mem _ 0 r0.length (List.mem_map_of_mem List.length hr0)
      have h00 : nColsOf (gridRows cellBoxes) = 0 := h0
      have hr00 : r0.length = 0 := by omega
      exact mem_clusterRows_ne_nil (sortCellBoxes cellBoxes) r0 hr0
        (List.eq_nil_of_length_eq_zero hr00)
    · obtain ⟨r, hr, hlen⟩ := List.mem_map.mp hm
      exact ⟨r, hr, hlen⟩
  · have h1 := sum_lengths_clusterRows (sortCellBoxes cellBoxes)
    have h2 := length_sortCellBoxes cellBoxes
    exact h1.trans h2

/-- C5 (witness): instantiation on a two-box candidate list whose boxes land
in distinct rows. -/
theorem C5_grid_invariant_witness :
    ∃ g : Grid, detectGrid [⟨0, 0, 9, 9⟩, ⟨0, 30, 9, 9⟩] = .ok g ∧
      g.rows = gridRows [⟨0, 0, 9, 9⟩, ⟨0, 30, 9, 9⟩] ∧
      (∀ r ∈ g.rows, r ≠ []) ∧
      (∀ r ∈ g.rows, r.length ≤ g.n_cols) ∧
      (∃ r ∈ g.rows, r.length = g.n_cols) ∧
      (g.rows.map List.length).sum =
        ([⟨0, 0, 9, 9⟩, ⟨0, 30, 9, 9⟩] : List Box).length :=
  C5_grid_invariant [⟨0, 0, 9, 9⟩, ⟨0, 30, 9, 9⟩] (by decide)

theorem sortCellBoxes_pair {a b : Box} (h : a.y < b.y) :
    sortCellBoxes [a, b] = [a, b] := by
  have hk : keyYX a b := Or.inl h
  simp [sortCellBoxes, List.insertionSort, List.orderedInsert, hk]

theorem sortRowByX_single (a : Box) : sortRowByX [a] = [a] := rfl

theorem clusterRows_pair (a b : Box) :
    clusterRows [a, b] = if (b.y - a.y).natAbs < 20
      then [sortRowByX [a, b]] else [sortRowByX [a], sortRowByX [b]] := by
  by_cases h : (b.y - a.y).natAbs < 20
  · simp [clusterRows, groupGo, h]
  · simp [clusterRows, groupGo, h]

/-- C6: the tolerance comparison of line 127 is strict: for two consecutive
sorted boxes, a top-edge `y` difference of 19 puts them in the same row,
while differences of 20 and of 21 start a new row. -/
theorem C6_tolerance_strict (a b : Box) :
    (b.y - a.y = 19 → gridRows [a, b] = [sortRowByX [a, b]]) ∧
    (b.y - a.y = 20 → gridRows [a, b] = [[a], [b]]) ∧
    (b.y - a.y = 21 → gridRows [a, b] = [[a], [b]]) := by
  refine ⟨?_, ?_, ?_⟩ <;> intro h <;>
    (have hy : a.y < b.y := by omega) <;>
    rw [gridRows, sortCellBoxes_pair hy, clusterRows_pair, h] <;>
    simp [sortRowByX_single]

/-- C6 (witness): concrete boxes at distances 19, 20, 21. -/
theorem C6_tolerance_strict_witness :
    gridRows [⟨0, 0, 5, 5⟩, ⟨0, 19, 5, 5⟩] =
      [sortRowByX [⟨0, 0, 5, 5⟩, ⟨0, 19, 5, 5⟩]] ∧
    gridRows [⟨0, 0, 5, 5⟩, ⟨0, 20, 5, 5⟩] = [[⟨0, 0, 5, 5⟩], [⟨0, 20, 5, 5⟩]] ∧
    gridRows [⟨0, 0, 5, 5⟩, ⟨0, 21, 5, 5⟩] = [[⟨0, 0, 5, 5⟩], [⟨0, 21, 5, 5⟩]] :=
  ⟨(C6_tolerance_strict ⟨0, 0, 5, 5⟩ ⟨0, 19, 5, 5⟩).1 (by decide),
   (C6_tolerance_strict ⟨0, 0, 5, 5⟩ ⟨0, 20, 5, 5⟩).2.1 (by decide),
   (C6_tolerance_strict ⟨0, 0, 5, 5⟩ ⟨0, 21, 5, 5⟩).2.2 (by decide)⟩

/-- C7: the area filter of line 119 is strict at the boundary: the candidate
cell boxes are exactly the bounding rectangles of the contours of area
strictly greater than 200 (so a contour of area ≤ 200 — including exactly
200 — is discarded, while area 201 is kept), and every box appearing in any
produced row is the bounding rectangle of such a kept contour. -/
theorem C7_area_filter (cs : List Contour) (β : Box) :
    (β ∈ cellBoxesOf cs ↔ ∃ c ∈ cs, 200 < c.area ∧ c.bbox = β) ∧
    (∀ r ∈ gridRows (cellBoxesOf cs), β ∈ r →
      ∃ c ∈ cs, 200 < c.area ∧ c.bbox = β) := by
  have hmem : β ∈ cellBoxesOf cs ↔ ∃ c ∈ cs, 200 < c.area ∧ c.bbox = β := by
    simp only [cellBoxesOf, List.mem_map, List.mem_filter, decide_eq_true_eq]
    constructor
    · rintro ⟨c, ⟨hc, ha⟩, hb⟩
      exact ⟨c, hc, ha, hb⟩
    · rintro ⟨c, hc, ha, hb⟩
      exact ⟨c, ⟨hc, ha⟩, hb⟩
  refine ⟨hmem, ?_⟩
  intro r hr hb
  apply hmem.mp
  have hr2 : r ∈ clusterRows (sortCellBoxes (cellBoxesOf cs)) := hr
  exact mem_sortCellBoxes.mp (mem_of_mem_clusterRows hr2 hb)

/-- C7 (witness): a contour of area exactly 200 is discarded while one of
area 201 is kept and populates the single row. -/
theorem C7_area_filter_witness :
    ((⟨1, 1, 9, 9⟩ : Box) ∈
        cellBoxesOf [⟨200, ⟨0, 0, 9, 9⟩⟩, ⟨201, ⟨1, 1, 9, 9⟩⟩] ↔
      ∃ c ∈ [(⟨200, ⟨0, 0, 9, 9⟩⟩ : Contour), ⟨201, ⟨1, 1, 9, 9⟩⟩],
        200 < c.area ∧ c.bbox = ⟨1, 1, 9, 9⟩) ∧
    (∃ c ∈ [(⟨200, ⟨0, 0, 9, 9⟩⟩ : Contour), ⟨201, ⟨1, 1, 9, 9⟩⟩],
      200 < c.area ∧ c.bbox = ⟨1, 1, 9, 9⟩) :=
  ⟨(C7_area_filter [⟨200, ⟨0, 0, 9, 9⟩⟩, ⟨201, ⟨1, 1, 9, 9⟩⟩] ⟨1, 1, 9, 9⟩).1,
   (C7_area_filter [⟨200, ⟨0, 0, 9, 9⟩⟩, ⟨201, ⟨1, 1, 9, 9⟩⟩] ⟨1, 1, 9, 9⟩).2
     [⟨1, 1, 9, 9⟩] (by decide) (by decide)⟩

/-- C8: the clusterer is deterministic: identical candidate box lists yield
identical grids.  In the embedding the pipeline is a pure function; in the
source this corresponds to Python's `sorted` being a deterministic stable
sort and the tolerance comparison being deterministic, with no other input
consulted. -/
theorem C8_deterministic (bs1 bs2 : List Box) (h : bs1 = bs2) :
    gridRows bs1 = gridRows bs2 ∧ detectGrid bs1 = detectGrid bs2 := by
  subst h
  exact ⟨rfl, rfl⟩

/-- C8 (witness): instantiation on a concrete candidate list. -/
theorem C8_deterministic_witness :
    gridRows [⟨0, 0, 9, 9⟩] = gridRows [⟨0, 0, 9, 9⟩] ∧
    detectGrid [⟨0, 0, 9, 9⟩] = detectGrid [⟨0, 0, 9, 9⟩] :=
  C8_deterministic [⟨0, 0, 9, 9⟩] [⟨0, 0, 9, 9⟩] rfl

/-- C9 (counterexample): the claim says an out-of-range table box is CLIPPED
to the page.  A box with negative `y0 = -5` on a 100-row page is not clipped:
Python slice semantics resolve `-5` relative to the end (row 95), so the crop
`[95:5]` is empty, whereas clipping `[-5, 5)` to the page would read rows
0 to 4. -/
theorem C9_clip_counterexample :
    sliceIdxs 100 (-5) 5 = [] ∧
    clipIdxs 100 (-5) 5 = [0, 1, 2, 3, 4] ∧
    sliceIdxs 100 (-5) 5 ≠ clipIdxs 100 (-5) 5 := by
  decide

/-- C9 (amended): the crop never performs an out-of-bounds read — every index
it touches is inside the page axis — and for non-negative coordinates
(including ones exceeding the page dimensions) it equals the clip of the box
to the page; a negative coordinate is instead resolved relative to the end of
the axis (Python slice semantics), still in bounds. -/
theorem C9_slice_inbounds (n : Nat) (i j : Int) :
    (∀ k ∈ sliceIdxs n i j, k < n) ∧
    (0 ≤ i → 0 ≤ j → sliceIdxs n i j = clipIdxs n i j) := by
  have hb : ∀ m : Int, sliceBound n m ≤ n := by
    intro m
    unfold sliceBound
    split
    · omega
    · exact min_le_right _ _
  constructor
  · intro k hk
    have h1 := hb i
    have h2 := hb j
    simp only [sliceIdxs, List.mem_range'] at hk
    obtain ⟨t, ht, rfl⟩ := hk
    omega
  · intro hi hj
    have hbi : sliceBound n i = clipBound n i := by
      unfold sliceBound clipBound
      rw [if_neg (by omega : ¬ i < 0), max_eq_left hi]
    have hbj : sliceBound n j = clipBound n j := by
      unfold sliceBound clipBound
      rw [if_neg (by omega : ¬ j < 0), max_eq_left hj]
    simp only [sliceIdxs, clipIdxs, hbi, hbj]

/-- C9 (witness for the amended theorem): a 10-row page with the in-range
start 2 and the out-of-range stop 20. -/
theorem C9_slice_inbounds_witness :
    3 < 10 ∧ sliceIdxs 10 2 20 = clipIdxs 10 2 20 :=
  ⟨(C9_slice_inbounds 10 2 20).1 3 (by decide),
   (C9_slice_inbounds 10 2 20).2 (by decide) (by decide)⟩

theorem pagesAppendedGo_eq_nil : ∀ (perPage : List (List Grid)) (off : Nat),
    (∀ recs ∈ perPage, recs = []) → pagesAppendedGo off perPage = []
  | [], _, _ => rfl
  | recs :: rest, off, h => by
    have h0 : recs = [] := h recs (List.mem_cons_self _ _)
    have hrec := pagesAppendedGo_eq_nil rest (off + 1)
      (fun r hr => h r (List.mem_cons_of_mem _ hr))
    simp [pagesAppendedGo, h0, hrec]

/-- C10: exactly one summary is appended for every document whose pages
rasterize, even when no table was extracted (in which case `n_tables = 0` and
`pages_with_tables = []`, which also covers a terminally failed layout parse,
whose empty element list leaves every page without tables); a rasterization
failure suppresses the summary. -/
theorem C10_summary (d : DocInput) :
    (d.rasterOk = false → processDoc d = none) ∧
    (d.rasterOk = true → processDoc d =
      some ⟨((docPageRecords d).map List.length).sum,
            pagesWithTablesOf (docPageRecords d)⟩) ∧
    (d.rasterOk = true → (∀ p ∈ d.pages, runPageTables p.tables = []) →
      processDoc d = some ⟨0, []⟩) := by
  refine ⟨?_, ?_, ?_⟩
  · intro h
    simp [processDoc, h]
  · intro h
    simp [processDoc, h]
  · intro h hall
    have hrecs : ∀ recs ∈ docPageRecords d, recs = [] := by
      intro recs hr
      simp only [docPageRecords, List.mem_map] at hr
      obtain ⟨p, hp, rfl⟩ := hr
      exact hall p hp
    have hsum : ((docPageRecords d).map List.length).sum = 0 := by
      apply List.sum_eq_zero
      intro x hx
      obtain ⟨recs, hr, rfl⟩ := List.mem_map.mp hx
      rw [hrecs recs hr]
      rfl
    have hpw : pagesWithTablesOf (docPageRecords d) = [] := by
      unfold pagesWithTablesOf
      rw [pagesAppendedGo_eq_nil _ 0 hrecs]
      rfl
    simp [processDoc, h, hsum, hpw]

/-- C10 (witness): a document whose single page holds no table gets the empty
summary; a document that fails to rasterize gets none. -/
theorem C10_summary_witness :
    processDoc ⟨false, [⟨[]⟩]⟩ = none ∧
    processDoc ⟨true, [⟨[]⟩]⟩ = some ⟨0, []⟩ :=
  ⟨(C10_summary ⟨false, [⟨[]⟩]⟩).1 rfl,
   (C10_summary ⟨true, [⟨[]⟩]⟩).2.2 rfl (by
     intro p hp
     rw [List.mem_singleton.mp hp]
     rfl)⟩

end Spar
